import Mathlib

/-
Verification of the medical-records blockchain ledger engine of
hack-knight-25 (src/blockchain/blockchain.py), as a shallow embedding.

Modelling conventions:
  * Python dicts are embedded either as Lean structures (when the code
    always builds them with a fixed key set: blocks, transactions, medical
    records) or as association lists of (key, JSON value) pairs (for the
    generic `Blockchain.hash`, whose argument is an arbitrary dict).
  * `hashlib.sha256(...).hexdigest()` is an external primitive; it is a
    parameter `sha : String → String` of every definition that hashes.
    Likewise Python's `str()` of a transaction list (used only as a
    pre-image for proof-of-work hashing) is a parameter
    `strTxs : List Tx → String`, and the Fernet encrypt/decrypt pipelines
    (json.dumps + Fernet + base64, with all handled exceptions collapsed
    to a failure result by the handle_exceptions decorators) are
    parameters `fern : JValue → Option String` / `fernDec : String → Option JValue`.
  * RSA PKCS#1 v1.5 verification is a parameter
    `rsaVerify : String → String → _ → Bool`.
  * `time()` is passed in as an integer tick `ts`.
  * Fallible Python code (exceptions caught by handle_exceptions, or an
    IndexError on an empty chain) is modelled with Option / explicit
    sentinel results, mirroring what the decorators in
    blockchain_exceptions.py return.
  * JSON string rendering assumes key/value strings need no escapes,
    which holds for every string the claims touch.
-/

namespace Blockchain

/-- Reserved identity for mining rewards (`MINING_SENDER` in blockchain.py). -/
def MINING_SENDER : String := "THE BLOCKCHAIN"

/-- Leading-zero count for proof-of-work (`MINING_DIFFICULTY` in blockchain.py). -/
def MINING_DIFFICULTY : Nat := 2

/-- `RECORD_TYPES.values()` from blockchain.py, in dict insertion order. -/
def RECORD_TYPES_values : List String :=
  ["diagnostic_report", "prescription", "lab_result", "vital_signs",
   "consultation_notes", "surgery_record", "imaging_report", "vaccination",
   "allergy_record", "patient_consent"]

/-- JSON values, the payloads of block dicts. -/
inductive JValue where
  | null : JValue
  | bool (b : Bool) : JValue
  | str (s : String) : JValue
  | num (n : Int) : JValue
  | arr (xs : List JValue) : JValue
  | obj (entries : List (String × JValue)) : JValue

/-- Python truthiness of a JSON value (`if not data`, `if decrypted_data`). -/
def JValue.truthy : JValue → Bool
  | .null => false
  | .bool b => b
  | .str s => s != ""
  | .num n => n != 0
  | .arr xs => !xs.isEmpty
  | .obj es => !es.isEmpty

/-- Code-point lexicographic strict order on character lists: the order in
which Python compares strings when `json.dumps(..., sort_keys=True)` sorts
dict keys. -/
def charListLt : List Char → List Char → Bool
  | [], [] => false
  | [], _ :: _ => true
  | _ :: _, [] => false
  | a :: as, b :: bs =>
    if a.toNat < b.toNat then true
    else if b.toNat < a.toNat then false
    else charListLt as bs

/-- Total order on strings induced by `charListLt`. -/
def keyLe (a b : String) : Bool := !(charListLt b.data a.data)

/-- Sort (key, rendered value) pairs by key, as `sort_keys=True` does. -/
def sortByKey (l : List (String × String)) : List (String × String) :=
  List.insertionSort (fun p q => keyLe p.1 q.1 = true) l

/-- JSON string literal rendering (no escapes needed for our keys/values). -/
def jquote (s : String) : String := "\"" ++ s ++ "\""

mutual
/-- `json.dumps(v, sort_keys=True)`: canonical serialization with every
object's keys sorted, items joined with Python's default separators. -/
def JValue.dumps : JValue → String
  | .null => "null"
  | .bool true => "true"
  | .bool false => "false"
  | .str s => jquote s
  | .num n => toString n
  | .arr xs => "[" ++ String.intercalate ", " (dumpsArr xs) ++ "]"
  | .obj es =>
    "\x7b" ++ String.intercalate ", "
      ((sortByKey (dumpsEntries es)).map (fun kv => jquote kv.1 ++ ": " ++ kv.2)) ++ "\x7d"

/-- Render each element of a JSON array. -/
def dumpsArr : List JValue → List String
  | [] => []
  | x :: xs => x.dumps :: dumpsArr xs

/-- Render the value of each entry of a JSON object, keeping its key. -/
def dumpsEntries : List (String × JValue) → List (String × String)
  | [] => []
  | (k, v) :: es => (k, v.dumps) :: dumpsEntries es
end

/-- `Blockchain.hash`: sha256 hex digest of the canonical (sorted-keys)
JSON serialization of a block dict, given the sha256 oracle. -/
def hash (sha : String → String) (block : List (String × JValue)) : String :=
  sha (JValue.dumps (.obj block))

/-- A medical-record transaction dict, as built by `new_medical_record`
(the constant `"type": "MEDICAL_RECORD"` entry is implied by the
constructor `Tx.medical` below; `data` is the stored ciphertext,
`none` embedding Python `None`). -/
structure MRecord where
  patient_id : String
  doctor_id : String
  record_type : String
  data : Option String
  timestamp : Nat
  access_list : List String
deriving DecidableEq

/-- The transaction dict shapes that occur in the program:
  * `plainTx`: `{sender, recipient, amount}` built by `new_transaction`;
  * `finTx`: `OrderedDict {sender_address, recipient_address, value}`
    built by `submit_transaction`;
  * `medical`: the full medical-record dict built by `new_medical_record`;
  * `medicalSummary`: the reduced 4-key dict
    `{type, patient_id, doctor_id, record_type}` that `valid_chain`
    rebuilds for proof-of-work re-validation. -/
inductive Tx where
  | plainTx (sender recipient : String) (amount : Int)
  | finTx (sender_address recipient_address : String) (value : Int)
  | medical (r : MRecord)
  | medicalSummary (patient_id doctor_id record_type : String)
deriving DecidableEq

/-- A block dict, as built by `new_block`. -/
structure Block where
  index : Nat
  timestamp : Nat
  transactions : List Tx
  nonce : Nat
  previous_hash : String
deriving DecidableEq

/-- The mutable engine state: `self.chain` and `self.transactions`
(the pending pool). The node registry plays no role in the claims. -/
structure BState where
  chain : List Block
  transactions : List Tx
deriving DecidableEq

/-- The JSON dict underlying a transaction, with each dict literal's keys
in the insertion order used by the source. -/
def txToJson : Tx → JValue
  | .plainTx s r a =>
    .obj [("sender", .str s), ("recipient", .str r), ("amount", .num a)]
  | .finTx s r v =>
    .obj [("sender_address", .str s), ("recipient_address", .str r), ("value", .num v)]
  | .medical rec =>
    .obj [("type", .str "MEDICAL_RECORD"), ("patient_id", .str rec.patient_id),
          ("doctor_id", .str rec.doctor_id), ("record_type", .str rec.record_type),
          ("data", match rec.data with | none => .null | some s => .str s),
          ("timestamp", .num rec.timestamp), ("access_list", .arr (rec.access_list.map .str))]
  | .medicalSummary p d rt =>
    .obj [("type", .str "MEDICAL_RECORD"), ("patient_id", .str p),
          ("doctor_id", .str d), ("record_type", .str rt)]

/-- The association list of a block dict, keys in the insertion order of
the dict literal in `new_block`. -/
def blockEntries (b : Block) : List (String × JValue) :=
  [("index", .num b.index), ("timestamp", .num b.timestamp),
   ("transactions", .arr (b.transactions.map txToJson)),
   ("nonce", .num b.nonce), ("previous_hash", .str b.previous_hash)]

/-- `Blockchain.hash` applied to a block built by `new_block`. -/
def hashBlock (sha : String → String) (b : Block) : String :=
  hash sha (blockEntries b)

/-- `new_block(nonce, previous_hash)`: seals the pending pool into a block
appended to the chain and clears the pool. When `previous_hash` is omitted
the hash of the current last block is used; Python raises IndexError on an
empty chain there, embedded as `none`. -/
def new_block (sha : String → String) (ts : Nat) (st : BState) (nonce : Nat)
    (previous_hash : Option String) : Option (Block × BState) :=
  let mk : String → Block × BState := fun prev_hash =>
    let b : Block :=
      { index := st.chain.length + 1, timestamp := ts,
        transactions := st.transactions, nonce := nonce, previous_hash := prev_hash }
    (b, { chain := st.chain ++ [b], transactions := [] })
  match previous_hash with
  | some p => some (mk p)
  | none =>
    match st.chain.getLast? with
    | some last => some (mk (hashBlock sha last))
    | none => none

/-- The genesis block: `__init__` runs `self.new_block(0, "00")` on an
empty chain at construction time `ts`. -/
def genesisBlock (ts : Nat) : Block :=
  { index := 1, timestamp := ts, transactions := [], nonce := 0, previous_hash := "00" }

/-- Engine state right after `__init__`. -/
def initState (ts : Nat) : BState :=
  { chain := [genesisBlock ts], transactions := [] }

/-- Python string slicing `s[:n]` on an ASCII string. -/
def strTake (s : String) (n : Nat) : String := String.mk (s.data.take n)

/-- `"0" * difficulty`. -/
def zeros (d : Nat) : String := String.mk (List.replicate d '0')

/-- `valid_proof(transactions, last_hash, nonce, difficulty)`: the sha256
hex digest of `str(transactions) + str(last_hash) + str(nonce)` must start
with `difficulty` zero characters. -/
def valid_proof (sha : String → String) (strTxs : List Tx → String)
    (transactions : List Tx) (last_hash : String) (nonce : Nat) (difficulty : Nat) : Bool :=
  strTake (sha (strTxs transactions ++ last_hash ++ toString nonce)) difficulty
    == zeros difficulty

/-- The `while not valid_proof(...): nonce += 1` search of `proof_of_work`,
made total with explicit fuel (the Python loop is unbounded). -/
def powLoop (sha : String → String) (strTxs : List Tx → String)
    (transactions : List Tx) (last_hash : String) : Nat → Nat → Option Nat
  | 0, _ => none
  | fuel + 1, nonce =>
    if valid_proof sha strTxs transactions last_hash nonce MINING_DIFFICULTY then some nonce
    else powLoop sha strTxs transactions last_hash fuel (nonce + 1)

/-- `proof_of_work()`: search from nonce 0 over the pending pool and the
hash of the last block. `none` covers both fuel exhaustion and the
IndexError a Python caller would get on an empty chain. -/
def proof_of_work (sha : String → String) (strTxs : List Tx → String)
    (st : BState) (fuel : Nat) : Option Nat :=
  match st.chain.getLast? with
  | none => none
  | some last_block => powLoop sha strTxs st.transactions (hashBlock sha last_block) fuel 0

/-- The `Union[int, bool]` results of the admission paths: a block index
on success, the Python literal `False` on rejection. -/
inductive RetVal where
  | idx (n : Nat)
  | fls
deriving DecidableEq

/-- `submit_transaction(sender_address, recipient_address, value, signature)`:
mining rewards skip the signature check; everyone else goes through
`verify_transaction_signature` (the RSA pipeline, abstracted as `verify`). -/
def submit_transaction (verify : String → String → Tx → Bool) (st : BState)
    (sender_address recipient_address : String) (value : Int) (signature : String) :
    RetVal × BState :=
  let transaction := Tx.finTx sender_address recipient_address value
  if sender_address = MINING_SENDER then
    (RetVal.idx (st.chain.length + 1),
     { st with transactions := st.transactions ++ [transaction] })
  else if verify sender_address signature transaction then
    (RetVal.idx (st.chain.length + 1),
     { st with transactions := st.transactions ++ [transaction] })
  else
    (RetVal.fls, st)

/-- `encrypt_medical_data(data)`: falsy input (including `None`) yields
`None`; otherwise the Fernet/base64 pipeline `fern` runs, `none` standing
for its handled failures. -/
def encrypt_medical_data (fern : JValue → Option String) (data : Option JValue) :
    Option String :=
  match data with
  | none => none
  | some d => if d.truthy then fern d else none

/-- `decrypt_medical_data(encrypted_data, authorized)`: `None` when the
ciphertext is falsy or the caller is unauthorized, else the
base64/Fernet/json pipeline `fernDec`, `none` standing for its handled
failures. -/
def decrypt_medical_data (fernDec : String → Option JValue)
    (encrypted_data : Option String) (authorized : Bool) : Option JValue :=
  match encrypted_data, authorized with
  | none, _ => none
  | some _, false => none
  | some s, true => if s = "" then none else fernDec s

/-- `verify_record_signature(provider_id, signature, record)`: the debug
magic string short-circuits to `True`; a falsy signature fails; otherwise
RSA verification runs over a copy of the record whose `data` field is
replaced by the fixed placeholder. -/
def verify_record_signature (rsaVerify : String → String → MRecord → Bool)
    (provider_id : String) (signature : Option String) (record : MRecord) : Bool :=
  if signature = some "DEBUG_SKIP_VERIFICATION" then true
  else
    match signature with
    | none => false
    | some "" => false
    | some sig =>
      rsaVerify provider_id sig { record with data := some "SIGNATURE_PLACEHOLDER" }

/-- `access_list or [patient_id, doctor_id]` (Python `or`: `None` and the
empty list are falsy). -/
def pyListOr (access_list : Option (List String)) (dflt : List String) : List String :=
  match access_list with
  | none => dflt
  | some [] => dflt
  | some l => l

/-- `new_medical_record(patient_id, doctor_id, record_type, medical_data,
access_list, signature)`: validates the record type, encrypts the payload,
builds the record, verifies the provider signature unless the provider is
the mining identity, then appends to the pending pool and returns
`last_block["index"] + 1`. The ValueError / failed-verification /
failed-encryption paths all return `False` through the exception handlers.
On an empty chain the final index lookup raises IndexError after the
append, which the fallback handler turns into `False`. -/
def new_medical_record (fern : JValue → Option String)
    (rsaVerify : String → String → MRecord → Bool) (ts : Nat) (st : BState)
    (patient_id doctor_id record_type : String) (medical_data : Option JValue)
    (access_list : Option (List String)) (signature : Option String) :
    RetVal × BState :=
  if record_type ∉ RECORD_TYPES_values then
    (RetVal.fls, st)
  else
    let encrypted_data := encrypt_medical_data fern medical_data
    if encrypted_data.isNone && !medical_data.isNone then
      (RetVal.fls, st)
    else
      let record : MRecord :=
        { patient_id := patient_id, doctor_id := doctor_id,
          record_type := record_type, data := encrypted_data, timestamp := ts,
          access_list := pyListOr access_list [patient_id, doctor_id] }
      if doctor_id ≠ MINING_SENDER ∧
          verify_record_signature rsaVerify doctor_id signature record = false then
        (RetVal.fls, st)
      else
        match st.chain.getLast? with
        | some last_block =>
          (RetVal.idx (last_block.index + 1),
           { st with transactions := st.transactions ++ [Tx.medical record] })
        | none =>
          (RetVal.fls, { st with transactions := st.transactions ++ [Tx.medical record] })

/-- A returned record copy from `get_patient_records`: same fields as the
stored record, except that `data` now holds a decrypted JSON value, the
sentinel string, or the untouched falsy stored value. -/
structure MRecordView where
  patient_id : String
  doctor_id : String
  record_type : String
  data : Option JValue
  timestamp : Nat
  access_list : List String

/-- The `record = transaction.copy()` body of `get_patient_records`: for a
truthy stored ciphertext, decrypt (authorized) and substitute the result
if truthy, else the `"ENCRYPTED"` sentinel; falsy stored data is left as
is. -/
def viewRecord (fernDec : String → Option JValue) (r : MRecord) : MRecordView :=
  { patient_id := r.patient_id, doctor_id := r.doctor_id,
    record_type := r.record_type, timestamp := r.timestamp,
    access_list := r.access_list,
    data :=
      match r.data with
      | none => none
      | some s =>
        if s = "" then some (.str s)
        else
          match decrypt_medical_data fernDec (some s) true with
          | some v => some (if v.truthy then v else .str "ENCRYPTED")
          | none => some (.str "ENCRYPTED") }

/-- The `if record_type and transaction.get("record_type") != record_type:
continue` guard: skip only when the filter argument is truthy and the
types differ. -/
def rtFilterSkips : Option String → String → Bool
  | none, _ => false
  | some s, rrt => s != "" && rrt != s

/-- `get_patient_records(patient_id, requester_id, record_type)`: scan
every block's transactions in chain order; keep medical records of the
patient passing the type filter whose access list contains the requester;
return decrypted copies. A `medicalSummary` dict also carries
`type == "MEDICAL_RECORD"`, but its `access_list` lookup defaults to `[]`
so it is never included. -/
def get_patient_records (fernDec : String → Option JValue) (st : BState)
    (patient_id requester_id : String) (record_type : Option String) :
    List MRecordView :=
  st.chain.flatMap fun block =>
    block.transactions.filterMap fun transaction =>
      match transaction with
      | Tx.medical r =>
        if r.patient_id = patient_id then
          if rtFilterSkips record_type r.record_type then none
          else if requester_id ∈ r.access_list then some (viewRecord fernDec r)
          else none
        else none
      | _ => none

/-- The per-transaction reconstruction in `valid_chain`: dicts with the
`sender`/`recipient`/`amount` keys survive reduced to those keys (the
same dict shape); dicts with `type == "MEDICAL_RECORD"` are reduced to
four fields; every other dict — in particular the
`sender_address`/`recipient_address`/`value` dicts that
`submit_transaction` creates — is dropped. -/
def simplifyTx : Tx → Option Tx
  | .plainTx s r a => some (.plainTx s r a)
  | .finTx _ _ _ => none
  | .medical r => some (.medicalSummary r.patient_id r.doctor_id r.record_type)
  | .medicalSummary p d rt => some (.medicalSummary p d rt)

/-- The `while current_index < len(chain)` walk of `valid_chain`, carrying
the previous block. -/
def validFrom (sha : String → String) (strTxs : List Tx → String) :
    Block → List Block → Bool
  | _, [] => true
  | last_block, block :: rest =>
    if block.previous_hash != hashBlock sha last_block then false
    else if !(valid_proof sha strTxs (block.transactions.filterMap simplifyTx)
        block.previous_hash block.nonce MINING_DIFFICULTY) then false
    else validFrom sha strTxs block rest

/-- `valid_chain(chain)`: an empty candidate is invalid; otherwise walk
from index 1 checking hash linkage and re-derived proof-of-work. -/
def valid_chain (sha : String → String) (strTxs : List Tx → String) :
    List Block → Bool
  | [] => false
  | first :: rest => validFrom sha strTxs first rest

/-- Extract the medical record carried by a transaction, if any. -/
def medicalOf : Tx → Option MRecord
  | .medical r => some r
  | _ => none

/-- The selection predicate of `get_patient_records`, stated the way the
spec reads: patient matches, the type filter (when truthy) matches, and
the requester is on the access list. -/
def authorizedFor (patient_id requester_id : String) (record_type : Option String)
    (r : MRecord) : Bool :=
  r.patient_id == patient_id &&
  (match record_type with
   | none => true
   | some s => s == "" || r.record_type == s) &&
  r.access_list.contains requester_id

/-- States reachable from engine construction by `new_block` calls that
omit `previous_hash`, with arbitrary pending-pool updates (admission)
in between. -/
inductive BuiltOmitted (sha : String → String) : BState → Prop where
  | genesis (ts : Nat) : BuiltOmitted sha (initState ts)
  | pool (st : BState) (txs : List Tx) :
      BuiltOmitted sha st → BuiltOmitted sha { st with transactions := txs }
  | step (st : BState) (ts nonce : Nat) (b : Block) (st' : BState) :
      BuiltOmitted sha st → new_block sha ts st nonce none = some (b, st') →
      BuiltOmitted sha st'

/-- States reachable from engine construction by arbitrary `new_block`
calls (any `previous_hash` argument), with arbitrary pending-pool updates
in between. -/
inductive BuiltAny (sha : String → String) : BState → Prop where
  | genesis (ts : Nat) : BuiltAny sha (initState ts)
  | pool (st : BState) (txs : List Tx) :
      BuiltAny sha st → BuiltAny sha { st with transactions := txs }
  | step (st : BState) (ts nonce : Nat) (previous_hash : Option String)
      (b : Block) (st' : BState) :
      BuiltAny sha st → new_block sha ts st nonce previous_hash = some (b, st') →
      BuiltAny sha st'

/-- Identity instantiation of the sha256 oracle, used in concrete runs. -/
def idFn : String → String := fun s => s

/-- A decryption oracle that always fails. -/
def noDecrypt : String → Option JValue := fun _ => none

/-- A decryption oracle that succeeds with a falsy plaintext (an empty
list), as Fernet decryption of a ciphertext of the JSON text of an empty
list does. -/
def falsyDecrypt : String → Option JValue := fun _ => some (.arr [])

/-- A decryption oracle that succeeds with the truthy plaintext 7. -/
def numDecrypt : String → Option JValue := fun _ => some (.num 7)

/-- An encryption oracle that returns a fixed ciphertext. -/
def constCipher : JValue → Option String := fun _ => some "CT"

/-- An RSA record-verification oracle that rejects everything. -/
def alwaysFalseRsa : String → String → MRecord → Bool := fun _ _ _ => false

/-- An RSA transaction-verification oracle that rejects everything. -/
def alwaysFalseTxVerify : String → String → Tx → Bool := fun _ _ _ => false

/-- A stored medical record with no ciphertext. -/
def sampleRecord : MRecord :=
  { patient_id := "p1", doctor_id := "d1", record_type := "prescription",
    data := none, timestamp := 3, access_list := ["p1", "d1"] }

/-- A state whose chain holds one block carrying `sampleRecord`. -/
def sampleState : BState :=
  { chain := [{ index := 1, timestamp := 0,
                transactions := [Tx.medical sampleRecord], nonce := 0,
                previous_hash := "00" }],
    transactions := [] }

/-- A stored medical record holding the non-empty ciphertext "CT". -/
def encRecord : MRecord :=
  { patient_id := "p1", doctor_id := "d1", record_type := "lab_result",
    data := some "CT", timestamp := 5, access_list := ["p1", "d1"] }

/-- The block produced by `new_block(7, "XX")` right after construction. -/
def badBlock : Block :=
  { index := 2, timestamp := 1, transactions := [], nonce := 7,
    previous_hash := "XX" }

/-- The state after that call. -/
def badState : BState :=
  { chain := [genesisBlock 0, badBlock], transactions := [] }

/-- The hash of the genesis block under the identity sha oracle. -/
def genesisHash : String := hashBlock idFn (genesisBlock 0)

/-- The block produced by `new_block(0)` (hash omitted) right after
construction. -/
def wBlock : Block :=
  { index := 2, timestamp := 1, transactions := [], nonce := 0,
    previous_hash := genesisHash }

/-- The state after that call. -/
def wState : BState :=
  { chain := [genesisBlock 0, wBlock], transactions := [] }

/-- A sha oracle meeting the difficulty target exactly on pre-images whose
first character is '1'. -/
def shaC5 : String → String := fun s => if strTake s 1 = "1" then "00" else "ff"

/-- A transaction-list serialization rendering the list's length, a stand-in
for Python `str()` that distinguishes the full pool from the reduced pool. -/
def lenTxs : List Tx → String := fun l => toString l.length

/-- The mining-reward transaction the `/mine` route submits. -/
def rewardTx : Tx := Tx.finTx MINING_SENDER "miner1" 1

/-- The state right after that submission on a fresh engine. -/
def rewardState : BState :=
  { chain := [genesisBlock 0], transactions := [rewardTx] }

/-- The block sealing `rewardTx` under the identity sha oracle. -/
def rewardBlock : Block :=
  { index := 2, timestamp := 1, transactions := [rewardTx], nonce := 0,
    previous_hash := genesisHash }

/-- A sha oracle whose digests always hit the difficulty target. -/
def shaZero : String → String := fun _ => "00"

/-- A transaction serialization that forgets its input. -/
def emptyStr : List Tx → String := fun _ => ""

end Blockchain

open Blockchain

/-- Characters with equal code points are equal. -/
theorem char_eq_of_toNat_eq {a b : Char} (h : a.toNat = b.toNat) : a = b := by
  rw [← Char.ofNat_toNat a, ← Char.ofNat_toNat b, h]

/-- `charListLt` is asymmetric. -/
theorem charListLt_asymm :
    ∀ (a b : List Char), charListLt a b = true → charListLt b a = false := by
  intro a
  induction a with
  | nil =>
    intro b hab
    cases b with
    | nil => simp [charListLt] at hab
    | cons bh bt => simp [charListLt]
  | cons ah a_tl ih =>
    intro b hab
    cases b with
    | nil => simp [charListLt] at hab
    | cons bh bt =>
      simp only [charListLt] at hab ⊢
      by_cases h1 : ah.toNat < bh.toNat
      · have h2 : ¬ bh.toNat < ah.toNat := by omega
        simp [h1, h2]
      · by_cases h1' : bh.toNat < ah.toNat
        · simp [h1, h1'] at hab
        · have hab' : charListLt a_tl bt = true := by simpa [h1, h1'] using hab
          simp [h1, h1', ih bt hab']

/-- `charListLt` is transitive. -/
theorem charListLt_trans :
    ∀ (a b c : List Char), charListLt a b = true → charListLt b c = true →
      charListLt a c = true := by
  intro a
  induction a with
  | nil =>
    intro b c hab hbc
    cases b with
    | nil => simp [charListLt] at hab
    | cons bh bt =>
      cases c with
      | nil => simp [charListLt] at hbc
      | cons ch ct => simp [charListLt]
  | cons ah a_tl ih =>
    intro b c hab hbc
    cases b with
    | nil => simp [charListLt] at hab
    | cons bh bt =>
      cases c with
      | nil => simp [charListLt] at hbc
      | cons ch ct =>
        simp only [charListLt] at hab hbc ⊢
        by_cases h1 : ah.toNat < bh.toNat
        · by_cases h2 : bh.toNat < ch.toNat
          · simp [show ah.toNat < ch.toNat by omega]
          · by_cases h2' : ch.toNat < bh.toNat
            · simp [h2, h2'] at hbc
            · simp [show ah.toNat < ch.toNat by omega]
        · by_cases h1' : bh.toNat < ah.toNat
          · simp [h1, h1'] at hab
          · have hab' : charListLt a_tl bt = true := by simpa [h1, h1'] using hab
            have h0 : ah.toNat = bh.toNat := by omega
            by_cases h2 : bh.toNat < ch.toNat
            · simp [show ah.toNat < ch.toNat by omega]
            · by_cases h2' : ch.toNat < bh.toNat
              · simp [h2, h2'] at hbc
              · have hbc' : charListLt bt ct = true := by simpa [h2, h2'] using hbc
                have h3 : ¬ ah.toNat < ch.toNat := by omega
                have h3' : ¬ ch.toNat < ah.toNat := by omega
                simp [h3, h3', ih bt ct hab' hbc']

/-- `charListLt` is connex on distinct lists. -/
theorem charListLt_connex :
    ∀ (a b : List Char), a ≠ b → charListLt a b = true ∨ charListLt b a = true := by
  intro a
  induction a with
  | nil =>
    intro b hne
    cases b with
    | nil => exact absurd rfl hne
    | cons bh bt => left; simp [charListLt]
  | cons ah a_tl ih =>
    intro b hne
    cases b with
    | nil => right; simp [charListLt]
    | cons bh bt =>
      by_cases h1 : ah.toNat < bh.toNat
      · left; simp [charListLt, h1]
      · by_cases h1' : bh.toNat < ah.toNat
        · right; simp [charListLt, h1']
        · have h0 : ah = bh := char_eq_of_toNat_eq (by omega)
          have hne' : a_tl ≠ bt := by
            intro h
            exact hne (by rw [h0, h])
          cases ih bt hne' with
          | inl h => left; simp [charListLt, h1, h1', h]
          | inr h => right; simp [charListLt, h1, h1', h0, h]

/-- `keyLe` is total. -/
theorem keyLe_total (a b : String) : keyLe a b = true ∨ keyLe b a = true := by
  cases hlt : charListLt b.data a.data with
  | false => left; simp [keyLe, hlt]
  | true => right; simp [keyLe, charListLt_asymm _ _ hlt]

/-- `keyLe` is transitive. -/
theorem keyLe_trans (a b c : String) :
    keyLe a b = true → keyLe b c = true → keyLe a c = true := by
  intro hab hbc
  have hab' : charListLt b.data a.data = false := by simpa [keyLe] using hab
  have hbc' : charListLt c.data b.data = false := by simpa [keyLe] using hbc
  suffices h : charListLt c.data a.data = false by simp [keyLe, h]
  cases hca : charListLt c.data a.data with
  | false => rfl
  | true =>
    exfalso
    by_cases hcb : c.data = b.data
    · rw [hcb] at hca
      simp [hca] at hab'
    · have hbc2 : charListLt b.data c.data = true := by
        cases charListLt_connex c.data b.data hcb with
        | inl h => rw [h] at hbc'; cases hbc'
        | inr h => exact h
      have : charListLt b.data a.data = true := charListLt_trans _ _ _ hbc2 hca
      rw [this] at hab'
      cases hab'

/-- Two strings below each other in `keyLe` are equal. -/
theorem keyLe_antisymm (a b : String) :
    keyLe a b = true → keyLe b a = true → a = b := by
  intro hab hba
  have hab' : charListLt b.data a.data = false := by simpa [keyLe] using hab
  have hba' : charListLt a.data b.data = false := by simpa [keyLe] using hba
  by_contra hne
  have hdata : a.data ≠ b.data := fun h => hne (by
    cases a; cases b; exact congrArg String.mk h)
  cases charListLt_connex a.data b.data hdata with
  | inl h => rw [h] at hba'; cases hba'
  | inr h => rw [h] at hab'; cases hab'

/-- `sortByKey` permutes its input. -/
theorem sortByKey_perm (l : List (String × String)) : (sortByKey l).Perm l :=
  List.perm_insertionSort _ l

/-- `sortByKey` sorts by key. -/
theorem sortByKey_sorted (l : List (String × String)) :
    List.Sorted (fun p q : String × String => keyLe p.1 q.1 = true) (sortByKey l) := by
  haveI : IsTotal (String × String) (fun p q => keyLe p.1 q.1 = true) :=
    ⟨fun p q => keyLe_total p.1 q.1⟩
  haveI : IsTrans (String × String) (fun p q => keyLe p.1 q.1 = true) :=
    ⟨fun p q u => keyLe_trans p.1 q.1 u.1⟩
  exact List.sorted_insertionSort _ l

/-- Sorting by key is invariant under permutation when keys are distinct:
the canonicity fact behind cross-node hash agreement. -/
theorem sortByKey_eq_of_perm (l1 l2 : List (String × String)) (hp : l1.Perm l2)
    (hnd : (l1.map Prod.fst).Nodup) : sortByKey l1 = sortByKey l2 := by
  have hperm : (sortByKey l1).Perm (sortByKey l2) :=
    (sortByKey_perm l1).trans (hp.trans (sortByKey_perm l2).symm)
  haveI : IsAntisymm (String × String)
      (fun p q => keyLe p.1 q.1 = true ∧ p.1 ≠ q.1) := by
    constructor
    intro p q hpq hqp
    exact absurd (keyLe_antisymm _ _ hpq.1 hqp.1) hpq.2
  have key1 : ((sortByKey l1).map Prod.fst).Nodup :=
    ((sortByKey_perm l1).map Prod.fst).nodup_iff.mpr hnd
  have key2 : ((sortByKey l2).map Prod.fst).Nodup := by
    have hnd2 : (l2.map Prod.fst).Nodup := (hp.map Prod.fst).nodup_iff.mp hnd
    exact ((sortByKey_perm l2).map Prod.fst).nodup_iff.mpr hnd2
  have hs1 : List.Sorted (fun p q : String × String => keyLe p.1 q.1 = true ∧ p.1 ≠ q.1)
      (sortByKey l1) :=
    (sortByKey_sorted l1).and (List.pairwise_map.mp key1)
  have hs2 : List.Sorted (fun p q : String × String => keyLe p.1 q.1 = true ∧ p.1 ≠ q.1)
      (sortByKey l2) :=
    (sortByKey_sorted l2).and (List.pairwise_map.mp key2)
  exact List.eq_of_perm_of_sorted hperm hs1 hs2

/-- `dumpsEntries` is a map over the entries. -/
theorem dumpsEntries_eq_map (es : List (String × JValue)) :
    dumpsEntries es = es.map (fun kv => (kv.1, JValue.dumps kv.2)) := by
  induction es with
  | nil => rfl
  | cons kv tl ih =>
    cases kv
    simp [dumpsEntries, ih]

/-- What every successful `new_block` call does to the block and state. -/
theorem new_block_spec (sha : String → String) (ts : Nat) (st : BState)
    (nonce : Nat) (ph : Option String) (b : Block) (st' : BState)
    (h : new_block sha ts st nonce ph = some (b, st')) :
    b.transactions = st.transactions ∧ st'.chain = st.chain ++ [b] ∧
    b.index = st.chain.length + 1 ∧ st'.transactions = [] ∧
    b.timestamp = ts ∧ b.nonce = nonce ∧
    (∀ p, ph = some p → b.previous_hash = p) ∧
    (ph = none → ∃ last, st.chain.getLast? = some last ∧
      b.previous_hash = hashBlock sha last) := by
  cases ph with
  | some p =>
    simp only [new_block] at h
    cases h
    refine ⟨rfl, rfl, rfl, rfl, rfl, rfl, ?_, ?_⟩
    · intro q hq; cases hq; rfl
    · intro hq; cases hq
  | none =>
    simp only [new_block] at h
    cases hl : st.chain.getLast? with
    | none => rw [hl] at h; cases h
    | some last =>
      rw [hl] at h
      cases h
      refine ⟨rfl, rfl, rfl, rfl, rfl, rfl, ?_, ?_⟩
      · intro q hq; cases hq
      · intro hq; exact ⟨last, rfl, rfl⟩

/-- Claim C3: with a non-empty chain, `new_block(nonce, previous_hash?)`
appends exactly one block sealing the pending pool verbatim, with index
`len(chain)+1` and the given (or computed-from-last) previous hash, and
empties the pool. -/
theorem new_block_seals_pending_pool (sha : String → String) (ts : Nat)
    (st : BState) (nonce : Nat) (previous_hash : Option String)
    (h : st.chain ≠ []) :
    ∃ b st', new_block sha ts st nonce previous_hash = some (b, st') ∧
      st'.chain = st.chain ++ [b] ∧
      b.transactions = st.transactions ∧
      b.index = st.chain.length + 1 ∧
      b.previous_hash = (match previous_hash with
        | some p => p
        | none => hashBlock sha (st.chain.getLast h)) ∧
      st'.transactions = [] := by
  have hex : ∃ r, new_block sha ts st nonce previous_hash = some r := by
    cases previous_hash with
    | some p => exact ⟨_, rfl⟩
    | none =>
      have hl : st.chain.getLast? = some (st.chain.getLast h) :=
        List.getLast?_eq_getLast st.chain h
      refine ⟨(⟨st.chain.length + 1, ts, st.transactions, nonce,
        hashBlock sha (st.chain.getLast h)⟩,
        ⟨st.chain ++ [⟨st.chain.length + 1, ts, st.transactions, nonce,
          hashBlock sha (st.chain.getLast h)⟩], []⟩), ?_⟩
      simp only [new_block, hl]
  obtain ⟨⟨b, st'⟩, heq⟩ := hex
  obtain ⟨h1, h2, h3, h4, _, _, h7, h8⟩ :=
    new_block_spec sha ts st nonce previous_hash b st' heq
  refine ⟨b, st', heq, h2, h1, h3, ?_, h4⟩
  cases previous_hash with
  | some p => exact h7 p rfl
  | none =>
    obtain ⟨last, hlast, hb⟩ := h8 rfl
    have hlg : last = st.chain.getLast h := by
      have h0 := List.getLast?_eq_getLast st.chain h
      rw [hlast] at h0
      exact Option.some.inj h0
    show b.previous_hash = hashBlock sha (st.chain.getLast h)
    rw [hb, hlg]

/-- Witness for C3: a concrete `new_block(0)` call on a one-block chain. -/
theorem new_block_seals_pending_pool_witness :
    rewardState.chain ≠ [] ∧
    (∃ b st', new_block idFn 1 rewardState 0 none = some (b, st') ∧
      st'.chain = rewardState.chain ++ [b] ∧
      b.transactions = rewardState.transactions ∧
      b.index = rewardState.chain.length + 1 ∧
      b.previous_hash = (match (none : Option String) with
        | some p => p
        | none => hashBlock idFn (rewardState.chain.getLast (by decide))) ∧
      st'.transactions = []) :=
  ⟨by decide, new_block_seals_pending_pool idFn 1 rewardState 0 none (by decide)⟩

/-- Claim C7: a transaction from the reserved mining identity is appended
with no signature verification (the verifier oracle is never consulted),
the call returns `len(chain)+1`, and the next sealed block carries the
transaction with its original fields. -/
theorem mining_sender_bypasses_signature_check
    (verify verify2 : String → String → Tx → Bool) (st : BState)
    (recipient_address : String) (value : Int) (signature signature2 : String) :
    submit_transaction verify st MINING_SENDER recipient_address value signature
      = (RetVal.idx (st.chain.length + 1),
         { st with transactions :=
             st.transactions ++ [Tx.finTx MINING_SENDER recipient_address value] }) ∧
    submit_transaction verify st MINING_SENDER recipient_address value signature
      = submit_transaction verify2 st MINING_SENDER recipient_address value signature2 ∧
    (∀ (sha : String → String) (ts nonce : Nat) (ph : Option String)
        (b : Block) (st'' : BState),
      new_block sha ts
        { st with transactions :=
            st.transactions ++ [Tx.finTx MINING_SENDER recipient_address value] }
        nonce ph = some (b, st'') →
      Tx.finTx MINING_SENDER recipient_address value ∈ b.transactions ∧
      b.transactions
        = st.transactions ++ [Tx.finTx MINING_SENDER recipient_address value]) := by
  refine ⟨by simp [submit_transaction], by simp [submit_transaction], ?_⟩
  intro sha ts nonce ph b st'' h
  have hb := (new_block_spec sha ts _ nonce ph b st'' h).1
  refine ⟨?_, hb⟩
  rw [hb]
  simp

/-- Witness for C7: the `/mine` route's reward transaction sealed into a
concrete block. -/
theorem mining_sender_bypasses_signature_check_witness :
    Tx.finTx MINING_SENDER "miner1" 1 ∈ rewardBlock.transactions ∧
    rewardBlock.transactions
      = (initState 0).transactions ++ [Tx.finTx MINING_SENDER "miner1" 1] :=
  (mining_sender_bypasses_signature_check alwaysFalseTxVerify alwaysFalseTxVerify
      (initState 0) "miner1" 1 "" "").2.2 idFn 1 0 none rewardBlock
    { chain := [genesisBlock 0, rewardBlock], transactions := [] } rfl

/-- Claim C8: an invalid record type makes `new_medical_record` return the
`False` sentinel and leave the state (so the pending pool) unchanged. -/
theorem invalid_record_type_rejected (fern : JValue → Option String)
    (rsaVerify : String → String → MRecord → Bool) (ts : Nat) (st : BState)
    (patient_id doctor_id record_type : String) (medical_data : Option JValue)
    (access_list : Option (List String)) (signature : Option String)
    (h : record_type ∉ RECORD_TYPES_values) :
    new_medical_record fern rsaVerify ts st patient_id doctor_id record_type
      medical_data access_list signature = (RetVal.fls, st) := by
  simp [new_medical_record, h]

/-- Witness for C8: the spec's own scenario, `record_type="not_a_type"`. -/
theorem invalid_record_type_rejected_witness :
    "not_a_type" ∉ RECORD_TYPES_values ∧
    new_medical_record constCipher alwaysFalseRsa 0 (initState 0) "p1" "d1"
      "not_a_type" none none none = (RetVal.fls, initState 0) :=
  ⟨by decide,
   invalid_record_type_rejected constCipher alwaysFalseRsa 0 (initState 0)
     "p1" "d1" "not_a_type" none none none (by decide)⟩

/-- Claim C10: the literal signature "DEBUG_SKIP_VERIFICATION" makes
`verify_record_signature` return true for every provider and record, so
`new_medical_record` accepts any well-typed record carrying it, for any
doctor, independently of the RSA oracle. -/
theorem debug_signature_escape_hatch
    (rsaVerify rsa2 : String → String → MRecord → Bool) (provider_id : String)
    (record : MRecord) (fern : JValue → Option String) (ts : Nat) (st : BState)
    (patient_id doctor_id record_type : String) (medical_data : Option JValue)
    (access_list : Option (List String))
    (hrt : record_type ∈ RECORD_TYPES_values)
    (henc : encrypt_medical_data fern medical_data ≠ none ∨ medical_data = none)
    (hchain : st.chain ≠ []) :
    verify_record_signature rsaVerify provider_id
      (some "DEBUG_SKIP_VERIFICATION") record = true ∧
    (∃ last_block, st.chain.getLast? = some last_block ∧
      new_medical_record fern rsaVerify ts st patient_id doctor_id record_type
          medical_data access_list (some "DEBUG_SKIP_VERIFICATION")
        = (RetVal.idx (last_block.index + 1),
           { st with transactions := st.transactions ++
               [Tx.medical
                 { patient_id := patient_id, doctor_id := doctor_id,
                   record_type := record_type,
                   data := encrypt_medical_data fern medical_data,
                   timestamp := ts,
                   access_list := pyListOr access_list [patient_id, doctor_id] }] })) ∧
    new_medical_record fern rsaVerify ts st patient_id doctor_id record_type
        medical_data access_list (some "DEBUG_SKIP_VERIFICATION")
      = new_medical_record fern rsa2 ts st patient_id doctor_id record_type
          medical_data access_list (some "DEBUG_SKIP_VERIFICATION") := by
  have himp : encrypt_medical_data fern medical_data = none → medical_data = none := by
    intro he
    cases henc with
    | inl hcase => exact absurd he hcase
    | inr hcase => exact hcase
  have hlast := List.getLast?_eq_getLast st.chain hchain
  refine ⟨by simp [verify_record_signature], ⟨_, hlast, ?_⟩, ?_⟩
  · simp [new_medical_record, hrt, verify_record_signature, hlast]
    exact himp
  · simp [new_medical_record, hrt, verify_record_signature, hlast]

/-- Witness for C10: an always-rejecting RSA oracle still accepts a record
signed with the magic string. -/
theorem debug_signature_escape_hatch_witness :
    verify_record_signature alwaysFalseRsa "anyone"
      (some "DEBUG_SKIP_VERIFICATION") encRecord = true ∧
    (∃ last_block, (initState 0).chain.getLast? = some last_block ∧
      new_medical_record constCipher alwaysFalseRsa 0 (initState 0) "p1" "d1"
          "lab_result" (some (.str "mm")) none (some "DEBUG_SKIP_VERIFICATION")
        = (RetVal.idx (last_block.index + 1),
           { initState 0 with transactions := (initState 0).transactions ++
               [Tx.medical
                 { patient_id := "p1", doctor_id := "d1",
                   record_type := "lab_result",
                   data := encrypt_medical_data constCipher (some (.str "mm")),
                   timestamp := 0,
                   access_list := pyListOr none ["p1", "d1"] }] })) := by
  have h := debug_signature_escape_hatch alwaysFalseRsa alwaysFalseRsa "anyone"
    encRecord constCipher 0 (initState 0) "p1" "d1" "lab_result"
    (some (.str "mm")) none (by decide) (Or.inl (by decide)) (by decide)
  exact ⟨h.1, h.2.1⟩

/-- The fueled mining loop returns the first valid nonce at or above its
starting point. -/
theorem powLoop_some_spec (sha : String → String) (strTxs : List Tx → String)
    (transactions : List Tx) (last_hash : String) :
    ∀ (fuel start n : Nat),
      powLoop sha strTxs transactions last_hash fuel start = some n →
      start ≤ n ∧
      valid_proof sha strTxs transactions last_hash n MINING_DIFFICULTY = true ∧
      ∀ m, start ≤ m → m < n →
        valid_proof sha strTxs transactions last_hash m MINING_DIFFICULTY = false := by
  intro fuel
  induction fuel with
  | zero => intro start n h; simp [powLoop] at h
  | succ f ih =>
    intro start n h
    simp only [powLoop] at h
    cases hv : valid_proof sha strTxs transactions last_hash start MINING_DIFFICULTY with
    | true =>
      rw [hv] at h
      simp at h
      subst h
      exact ⟨Nat.le_refl _, hv, fun m h1 h2 => ((Nat.not_lt.mpr h1) h2).elim⟩
    | false =>
      rw [hv] at h
      simp at h
      obtain ⟨h1, h2, h3⟩ := ih (start + 1) n h
      refine ⟨by omega, h2, ?_⟩
      intro m hm1 hm2
      by_cases hms : m = start
      · subst hms; exact hv
      · exact h3 m (by omega) hm2

/-- Claim C2: when `proof_of_work()` terminates it yields the least valid
nonce for the pending pool and the hash of the last block, where validity
means the digest of `str(transactions)+str(last_hash)+str(nonce)` starts
with `difficulty` zeros, and the difficulty constant is 2. -/
theorem proof_of_work_finds_least_nonce (sha : String → String)
    (strTxs : List Tx → String) (st : BState) (fuel n : Nat)
    (h : proof_of_work sha strTxs st fuel = some n) :
    ∃ last_block, st.chain.getLast? = some last_block ∧
      valid_proof sha strTxs st.transactions (hashBlock sha last_block) n
        MINING_DIFFICULTY = true ∧
      (∀ m, m < n →
        valid_proof sha strTxs st.transactions (hashBlock sha last_block) m
          MINING_DIFFICULTY = false) ∧
      MINING_DIFFICULTY = 2 ∧
      (∀ (txs : List Tx) (last_hash : String) (k d : Nat),
        valid_proof sha strTxs txs last_hash k d
          = (strTake (sha (strTxs txs ++ last_hash ++ toString k)) d == zeros d)) := by
  unfold proof_of_work at h
  cases hl : st.chain.getLast? with
  | none => rw [hl] at h; cases h
  | some last_block =>
    rw [hl] at h
    obtain ⟨h1, h2, h3⟩ := powLoop_some_spec sha strTxs st.transactions
      (hashBlock sha last_block) fuel 0 n h
    exact ⟨last_block, rfl, h2, fun m hm => h3 m (Nat.zero_le m) hm, rfl,
      fun _ _ _ _ => rfl⟩

/-- Witness for C2: a sha oracle that always meets the target makes the
search stop at nonce 0 on a fresh engine. -/
theorem proof_of_work_finds_least_nonce_witness :
    ∃ last_block, (initState 0).chain.getLast? = some last_block ∧
      valid_proof shaZero emptyStr (initState 0).transactions
        (hashBlock shaZero last_block) 0 MINING_DIFFICULTY = true ∧
      (∀ m, m < 0 →
        valid_proof shaZero emptyStr (initState 0).transactions
          (hashBlock shaZero last_block) m MINING_DIFFICULTY = false) ∧
      MINING_DIFFICULTY = 2 ∧
      (∀ (txs : List Tx) (last_hash : String) (k d : Nat),
        valid_proof shaZero emptyStr txs last_hash k d
          = (strTake (shaZero (emptyStr txs ++ last_hash ++ toString k)) d == zeros d)) :=
  proof_of_work_finds_least_nonce shaZero emptyStr (initState 0) 1 0 (by decide)

/-- Claim C6: `hash` is stable across repeated calls and independent of
the dict's field insertion order: permuted entry lists with distinct keys
produce the identical digest. -/
theorem hash_field_order_independent (sha : String → String)
    (e1 e2 : List (String × JValue)) (hperm : e1.Perm e2)
    (hnd : (e1.map Prod.fst).Nodup) :
    Blockchain.hash sha e1 = Blockchain.hash sha e1 ∧
    Blockchain.hash sha e1 = Blockchain.hash sha e2 := by
  refine ⟨rfl, ?_⟩
  show sha (JValue.dumps (.obj e1)) = sha (JValue.dumps (.obj e2))
  have hkey : sortByKey (dumpsEntries e1) = sortByKey (dumpsEntries e2) := by
    apply sortByKey_eq_of_perm
    · rw [dumpsEntries_eq_map, dumpsEntries_eq_map]
      exact hperm.map _
    · rw [dumpsEntries_eq_map, List.map_map]
      exact hnd
  simp only [JValue.dumps, hkey]

/-- Witness for C6: two insertion orders of the same two fields. -/
theorem hash_field_order_independent_witness :
    Blockchain.hash idFn [("nonce", JValue.num 0), ("index", JValue.num 1)]
      = Blockchain.hash idFn [("nonce", JValue.num 0), ("index", JValue.num 1)] ∧
    Blockchain.hash idFn [("nonce", JValue.num 0), ("index", JValue.num 1)]
      = Blockchain.hash idFn [("index", JValue.num 1), ("nonce", JValue.num 0)] :=
  hash_field_order_independent idFn _ _
    (List.Perm.swap ("index", JValue.num 1) ("nonce", JValue.num 0) [])
    (by decide)

/-- The record-type filter expressed positively: passing the filter is the
negation of the skip guard. -/
theorem rtFilter_not_skips (rt : Option String) (rrt : String) :
    (match rt with
     | none => true
     | some s => s == "" || rrt == s) = !(rtFilterSkips rt rrt) := by
  cases rt with
  | none => rfl
  | some s =>
    by_cases h1 : s = ""
    · simp [rtFilterSkips, h1]
    · by_cases h2 : rrt = s
      · simp [rtFilterSkips, bne, h1, h2]
      · simp [rtFilterSkips, bne, h1, h2]

/-- The transaction-level scan of `get_patient_records` equals
extract-medical, filter by authorization, decrypt-map. -/
theorem viewList_eq (fernDec : String → Option JValue)
    (patient_id requester_id : String) (record_type : Option String) :
    ∀ (ts : List Tx),
      (ts.filterMap fun transaction =>
        match transaction with
        | Tx.medical r =>
          if r.patient_id = patient_id then
            if rtFilterSkips record_type r.record_type then none
            else if requester_id ∈ r.access_list then some (viewRecord fernDec r)
            else none
          else none
        | _ => none)
      = ((ts.filterMap medicalOf).filter
          (authorizedFor patient_id requester_id record_type)).map
          (viewRecord fernDec) := by
  intro ts
  induction ts with
  | nil => rfl
  | cons tx tl ih =>
    cases tx with
    | plainTx s r a => simpa [medicalOf] using ih
    | finTx s r v => simpa [medicalOf] using ih
    | medicalSummary p d rt => simpa [medicalOf] using ih
    | medical r =>
      simp only [List.filterMap_cons, medicalOf]
      by_cases hp : r.patient_id = patient_id
      · by_cases hskip : rtFilterSkips record_type r.record_type = true
        · have hauth : authorizedFor patient_id requester_id record_type r = false := by
            simp [authorizedFor, rtFilter_not_skips, hskip]
          simp [hp, hskip, hauth, ih]
        · have hskip' : rtFilterSkips record_type r.record_type = false := by
            cases hx : rtFilterSkips record_type r.record_type
            · rfl
            · exact absurd hx hskip
          by_cases hmem : requester_id ∈ r.access_list
          · have hauth : authorizedFor patient_id requester_id record_type r = true := by
              simp [authorizedFor, rtFilter_not_skips, hskip', hp, hmem]
            simp [hp, hskip', hmem, hauth, ih]
          · have hauth : authorizedFor patient_id requester_id record_type r = false := by
              simp [authorizedFor, hmem]
            simp [hp, hskip', hmem, hauth, ih]
      · have hauth : authorizedFor patient_id requester_id record_type r = false := by
          simp [authorizedFor, hp]
        simp [hp, hauth, ih]

/-- The block-level scan of `get_patient_records` over any chain. -/
theorem viewChain_eq (fernDec : String → Option JValue)
    (patient_id requester_id : String) (record_type : Option String) :
    ∀ (bs : List Block),
      (bs.flatMap fun block =>
        block.transactions.filterMap fun transaction =>
          match transaction with
          | Tx.medical r =>
            if r.patient_id = patient_id then
              if rtFilterSkips record_type r.record_type then none
              else if requester_id ∈ r.access_list then some (viewRecord fernDec r)
              else none
            else none
          | _ => none)
      = (((bs.flatMap Block.transactions).filterMap medicalOf).filter
          (authorizedFor patient_id requester_id record_type)).map
          (viewRecord fernDec) := by
  intro bs
  induction bs with
  | nil => rfl
  | cons b tl ih =>
    rw [List.flatMap_cons, ih,
      viewList_eq fernDec patient_id requester_id record_type b.transactions,
      List.flatMap_cons, List.filterMap_append, List.filter_append, List.map_append]

/-- Claim C1 (amended): `get_patient_records` returns exactly the stored
MEDICAL_RECORD transactions of the patient that pass the (truthy)
record-type filter and whose access list contains the requester, in chain
order, as decrypted copies; every returned record carries the requester in
its access list, so no record is ever exposed to a requester outside its
access list. -/
theorem get_patient_records_access_control (fernDec : String → Option JValue)
    (st : BState) (patient_id requester_id : String)
    (record_type : Option String) :
    (get_patient_records fernDec st patient_id requester_id record_type
      = (((st.chain.flatMap Block.transactions).filterMap medicalOf).filter
          (authorizedFor patient_id requester_id record_type)).map
          (viewRecord fernDec)) ∧
    ∀ v ∈ get_patient_records fernDec st patient_id requester_id record_type,
      requester_id ∈ v.access_list ∧ v.patient_id = patient_id := by
  have heq : get_patient_records fernDec st patient_id requester_id record_type
      = (((st.chain.flatMap Block.transactions).filterMap medicalOf).filter
          (authorizedFor patient_id requester_id record_type)).map
          (viewRecord fernDec) :=
    viewChain_eq fernDec patient_id requester_id record_type st.chain
  refine ⟨heq, ?_⟩
  intro v hv
  rw [heq] at hv
  obtain ⟨r, hr, rfl⟩ := List.mem_map.mp hv
  have hr2 := (List.mem_filter.mp hr).2
  simp only [authorizedFor, Bool.and_eq_true, beq_iff_eq] at hr2
  obtain ⟨⟨hpid, _⟩, hmem⟩ := hr2
  exact ⟨by simpa using hmem, hpid⟩

/-- Witness for C1: a requester on the access list receives the record
and the conclusion's access guarantee holds for it. -/
theorem get_patient_records_access_control_witness :
    "p1" ∈ (viewRecord noDecrypt sampleRecord).access_list ∧
    (viewRecord noDecrypt sampleRecord).patient_id = "p1" :=
  (get_patient_records_access_control noDecrypt sampleState "p1" "p1" none).2
    (viewRecord noDecrypt sampleRecord) (List.mem_singleton.mpr rfl)

/-- Counterexample to C1 as stated: with the empty-string filter — a given
filter — the scan returns a record whose record type does not match the
filter, because the source guard `if record_type and ...` treats a falsy
filter as absent. -/
theorem get_patient_records_empty_filter_counterexample :
    get_patient_records noDecrypt sampleState "p1" "p1" (some "")
      = [viewRecord noDecrypt sampleRecord] ∧
    sampleRecord.record_type ≠ "" :=
  ⟨rfl, by decide⟩

/-- Claim C9 (amended): for an included record with truthy stored
ciphertext, the returned copy carries the decrypted plaintext when
decryption succeeds with a truthy value; the "ENCRYPTED" sentinel is
substituted when decryption fails or returns a falsy value; and the whole
query is a per-record map, so one record's decryption failure leaves the
other results intact. -/
theorem encrypted_sentinel_amended (fernDec : String → Option JValue)
    (st : BState) (patient_id requester_id : String)
    (record_type : Option String) :
    (∀ (r : MRecord) (s : String) (v : JValue),
      r.data = some s → s ≠ "" → fernDec s = some v → v.truthy = true →
      (viewRecord fernDec r).data = some v) ∧
    (∀ (r : MRecord) (s : String),
      r.data = some s → s ≠ "" →
      (fernDec s = none ∨ ∃ v, fernDec s = some v ∧ v.truthy = false) →
      (viewRecord fernDec r).data = some (JValue.str "ENCRYPTED")) ∧
    get_patient_records fernDec st patient_id requester_id record_type
      = (((st.chain.flatMap Block.transactions).filterMap medicalOf).filter
          (authorizedFor patient_id requester_id record_type)).map
          (viewRecord fernDec) := by
  refine ⟨?_, ?_, viewChain_eq fernDec patient_id requester_id record_type st.chain⟩
  · intro r s v hd hs hf ht
    simp [viewRecord, hd, hs, decrypt_medical_data, hf, ht]
  · intro r s hd hs hcase
    cases hcase with
    | inl hf => simp [viewRecord, hd, hs, decrypt_medical_data, hf]
    | inr hf =>
      obtain ⟨v, hv, ht⟩ := hf
      simp [viewRecord, hd, hs, decrypt_medical_data, hv, ht]

/-- Witness for C9's amended claim: a truthy decryption is passed through;
a falsy one degrades to the sentinel. -/
theorem encrypted_sentinel_amended_witness :
    (viewRecord numDecrypt encRecord).data = some (JValue.num 7) ∧
    (viewRecord falsyDecrypt encRecord).data = some (JValue.str "ENCRYPTED") :=
  ⟨(encrypted_sentinel_amended numDecrypt sampleState "p1" "p1" none).1
      encRecord "CT" (JValue.num 7) rfl (by decide) rfl rfl,
   (encrypted_sentinel_amended falsyDecrypt sampleState "p1" "p1" none).2.1
      encRecord "CT" rfl (by decide) (Or.inr ⟨JValue.arr [], rfl, rfl⟩)⟩

/-- Counterexample to C9 as stated: decryption SUCCEEDS (returning the
empty list), yet the sentinel is substituted, because the source guards on
the truthiness of the decrypted value, not on decryption success. -/
theorem encrypted_sentinel_counterexample :
    decrypt_medical_data falsyDecrypt (some "CT") true = some (JValue.arr []) ∧
    (viewRecord falsyDecrypt encRecord).data = some (JValue.str "ENCRYPTED") :=
  ⟨rfl, rfl⟩

/-- Every state built with omitted-previous-hash `new_block` calls has a
hash-linked chain. -/
theorem builtOmitted_chain_linked (sha : String → String) (st : BState)
    (h : BuiltOmitted sha st) :
    List.Chain' (fun a b => b.previous_hash = hashBlock sha a) st.chain := by
  induction h with
  | genesis ts => exact List.chain'_singleton _
  | pool st txs hb ih => exact ih
  | step st ts nonce b st' hb heq ih =>
    simp only [new_block] at heq
    cases hl : st.chain.getLast? with
    | none => rw [hl] at heq; cases heq
    | some last =>
      rw [hl] at heq
      cases heq
      rw [List.chain'_append]
      refine ⟨ih, List.chain'_singleton _, ?_⟩
      intro x hx y hy
      rw [hl] at hx
      simp only [Option.mem_def, Option.some.injEq] at hx
      simp only [List.head?_cons, Option.mem_def, Option.some.injEq] at hy
      subst hx
      subst hy
      rfl

/-- Claim C4 (amended): in every chain built from genesis by `new_block`
calls that omit `previous_hash`, each block's `previous_hash` equals the
hash of its predecessor. -/
theorem chain_linkage_invariant (sha : String → String) (st : BState)
    (h : BuiltOmitted sha st) :
    ∀ (i : Nat) (hi : i + 1 < st.chain.length),
      (st.chain.get ⟨i + 1, hi⟩).previous_hash
        = hashBlock sha (st.chain.get ⟨i, Nat.lt_of_succ_lt hi⟩) := by
  intro i hi
  exact List.chain'_iff_get.mp (builtOmitted_chain_linked sha st h) i (by omega)

/-- Witness for C4's amended claim: the concrete two-block chain grown by
one omitted-hash `new_block` call. -/
theorem chain_linkage_invariant_witness :
    (wState.chain.get ⟨1, by decide⟩).previous_hash
      = hashBlock idFn (wState.chain.get ⟨0, by decide⟩) :=
  chain_linkage_invariant idFn wState
    (BuiltOmitted.step (initState 0) 1 0 wBlock wState
      (BuiltOmitted.genesis 0) rfl)
    0 (by decide)

/-- Counterexample to C4 as stated: a chain produced by `new_block` calls
(the second passing the explicit argument "XX") whose second block's
`previous_hash` is not the hash of the first. -/
theorem chain_linkage_counterexample :
    BuiltAny idFn badState ∧
    (badState.chain.get ⟨1, by decide⟩).previous_hash
      ≠ hashBlock idFn (badState.chain.get ⟨0, by decide⟩) :=
  ⟨BuiltAny.step (initState 0) 1 7 (some "XX") badBlock badState
      (BuiltAny.genesis 0) rfl,
   by decide⟩

/-- Claim C5 (the code bug made concrete): an engine-produced chain — the
mining reward accepted by `submit_transaction`, the nonce found by
`proof_of_work` over the full pending pool, the block sealed by
`new_block` with the correct previous hash — is rejected by `valid_chain`,
because `valid_chain` re-derives the proof of work over a reduced
transaction list (here empty: the reward transaction's
`sender_address`/`recipient_address`/`value` keys fail its
`sender`/`recipient`/`amount` check) instead of the list the nonce was
mined over. -/
theorem valid_chain_rejects_self_mined_chain :
    ∃ (stA : BState) (b : Block) (stB : BState),
      submit_transaction alwaysFalseTxVerify (initState 0) MINING_SENDER
        "miner1" 1 "" = (RetVal.idx 2, stA) ∧
      proof_of_work shaC5 lenTxs stA 1 = some 0 ∧
      new_block shaC5 2 stA 0 (some (hashBlock shaC5 (genesisBlock 0)))
        = some (b, stB) ∧
      b.transactions = [rewardTx] ∧
      b.transactions.filterMap simplifyTx = [] ∧
      valid_chain shaC5 lenTxs stB.chain = false := by
  refine ⟨_, _, _, rfl, ?_, rfl, rfl, rfl, ?_⟩
  · decide
  · decide
